import Mathlib

/-!
Verification of the file-intake pipeline of the backupService repository,
centred on `src/services/processFile.js`, over a shallow embedding of the
JavaScript source in Lean 4.

Modelling conventions:
* JavaScript objects are association lists in insertion order
  (`List (String × _)`); property reads, membership tests and assignments
  are `jsGet`, `jsHas`, `jsSet`.
* JavaScript numbers are exact rationals extended with `NaN` and the two
  infinities (`JsNum`); IEEE-754 rounding is not modelled, which is faithful
  for every value the theorems below touch.
* A thrown JavaScript `Error` is an `Except.error` carrying the message.
* `Date` objects are `Option ℤ` (epoch milliseconds; `none` is an
  Invalid Date).
* External collaborators (the csv parser's row stream, the Prisma store
  client, the `async` queue scheduler) are modelled at their interfaces;
  each such definition says so in its doc comment.
-/

/-! ## JavaScript object primitives -/

/-- Property read `o[k]` on an object modelled as an association list in
insertion order: the value at the first matching key, `none` for a key that
is not present (`undefined`). -/
def jsGet {α : Type} (o : List (String × α)) (k : String) : Option α :=
  (o.find? (fun p => p.1 == k)).map (fun p => p.2)

/-- The JavaScript `k in o` membership test. -/
def jsHas {α : Type} (o : List (String × α)) (k : String) : Bool :=
  o.any (fun p => p.1 == k)

/-- Property assignment `o[k] = v`: updates the value in place when the key
already exists (keeping its position), otherwise appends the new key. -/
def jsSet {α : Type} (o : List (String × α)) (k : String) (v : α) :
    List (String × α) :=
  if o.any (fun p => p.1 == k) then
    o.map (fun p => if p.1 == k then (p.1, v) else p)
  else o ++ [(k, v)]

/-! ## JavaScript numbers and the global `parseFloat` / `parseInt` -/

/-- A JavaScript number as far as the pipeline observes it: `NaN`, a signed
infinity, or a finite value (an exact rational). -/
inductive JsNum where
  | nan : JsNum
  | inf (neg : Bool) : JsNum
  | val (q : ℚ) : JsNum
deriving DecidableEq, Repr

/-- JavaScript truthiness of a number: `NaN` and `0` are falsy. -/
def jsTruthy : JsNum → Bool
  | .nan => false
  | .inf _ => true
  | .val q => decide (q ≠ 0)

/-- The idiom `x || 0` applied to a number: `x` when truthy, else `0`. -/
def jsOrZero (x : JsNum) : JsNum := if jsTruthy x then x else .val 0

/-- The idiom `parseInt(v) || 0` applied to a `parseInt` result
(`none` models `NaN`). -/
def jsIntOrZero : Option ℤ → ℤ
  | none => 0
  | some z => if z = 0 then 0 else z

/-- Numeric value of a decimal digit character. -/
def digitVal (c : Char) : ℕ := c.toNat - 48

/-- Numeric value of a hexadecimal digit character, if it is one. -/
def hexDigitVal (c : Char) : Option ℕ :=
  if c.isDigit then some (digitVal c)
  else if 'a' ≤ c ∧ c ≤ 'f' then some (c.toNat - 87)
  else if 'A' ≤ c ∧ c ≤ 'F' then some (c.toNat - 55)
  else none

/-- Leading sign of a JavaScript numeric literal; `true` means negative. -/
def readSign : List Char → Bool × List Char
  | '-' :: cs => (true, cs)
  | '+' :: cs => (false, cs)
  | cs => (false, cs)

/-- Value of a run of decimal digits. -/
def digitsToNat (ds : List Char) : ℕ :=
  ds.foldl (fun a c => 10 * a + digitVal c) 0

/-- Value of a run of hexadecimal digits. -/
def hexDigitsToNat (ds : List Char) : ℕ :=
  ds.foldl (fun a c => 16 * a + (hexDigitVal c).getD 0) 0

/-- Apply a leading sign to a parsed magnitude. -/
def applySign (neg : Bool) (n : ℕ) : ℤ := if neg then -(n : ℤ) else (n : ℤ)

/-- The hexadecimal tail of `parseInt` after a `0x` / `0X` prefix:
the longest run of hex digits, `none` (NaN) if it is empty. -/
def parseIntHexTail (neg : Bool) (cs : List Char) : Option ℤ :=
  let ds := cs.takeWhile (fun c => (hexDigitVal c).isSome)
  if ds.isEmpty then none else some (applySign neg (hexDigitsToNat ds))

/-- The JavaScript global `parseInt(s)` with no radix argument: skip leading
whitespace, read an optional sign, detect a `0x`/`0X` hexadecimal prefix,
then take the longest run of digits in the detected radix.  No digits at all
gives `NaN`, modelled as `none`; trailing garbage is ignored, so the call
parses a leading integer prefix of the string. -/
def parseInt (s : String) : Option ℤ :=
  let cs := s.data.dropWhile Char.isWhitespace
  let sc := readSign cs
  match sc.2 with
  | '0' :: 'x' :: rest => parseIntHexTail sc.1 rest
  | '0' :: 'X' :: rest => parseIntHexTail sc.1 rest
  | cs1 =>
    let ds := cs1.takeWhile Char.isDigit
    if ds.isEmpty then none else some (applySign sc.1 (digitsToNat ds))

/-- Exponent part of a decimal literal: an optional sign and the following
run of digits (empty run means the exponent part is absent/ignored). -/
def readExponent (cs : List Char) : Bool × List Char :=
  let sc := readSign cs
  (sc.1, sc.2.takeWhile Char.isDigit)

/-- The JavaScript global `parseFloat(s)`: skip leading whitespace, read an
optional sign, then the longest prefix that is a decimal literal
(`Infinity`, or integer digits with optional fraction and exponent).
No such prefix gives `NaN`.  Doubles are modelled as exact rationals. -/
def parseFloat (s : String) : JsNum :=
  let cs := s.data.dropWhile Char.isWhitespace
  let sc := readSign cs
  if sc.2.take 8 = "Infinity".data then .inf sc.1
  else
    let intDigs := sc.2.takeWhile Char.isDigit
    let afterInt := sc.2.drop intDigs.length
    let fracDigs :=
      match afterInt with
      | '.' :: rest => rest.takeWhile Char.isDigit
      | _ => []
    let afterFrac :=
      match afterInt with
      | '.' :: rest => rest.drop fracDigs.length
      | _ => afterInt
    if intDigs.isEmpty ∧ fracDigs.isEmpty then .nan
    else
      let mant : ℚ :=
        (digitsToNat intDigs : ℚ) + (digitsToNat fracDigs : ℚ) / 10 ^ fracDigs.length
      let ex :=
        match afterFrac with
        | 'e' :: rest => readExponent rest
        | 'E' :: rest => readExponent rest
        | _ => (false, [])
      let q :=
        if ex.2.isEmpty then mant
        else if ex.1 then mant / 10 ^ digitsToNat ex.2
        else mant * 10 ^ digitsToNat ex.2
      .val (if sc.1 then -q else q)

/-! ## Dates: `parseISO` (date-fns), `toISOString`, and zod's `isValid`

The two date libraries are external dependencies (not under `src/`), so they
are modelled from the spec: date-fns `parseISO` "parse it as ISO-8601", and
the normalized string of `Date.prototype.toISOString`. -/

/-- Read exactly `n` decimal digits, accumulating their value. -/
def readDigitsN : ℕ → ℕ → List Char → Option (ℕ × List Char)
  | 0, acc, cs => some (acc, cs)
  | n + 1, acc, c :: cs =>
    if c.isDigit then readDigitsN n (10 * acc + digitVal c) cs else none
  | _ + 1, _, [] => none

/-- Gregorian leap-year test. -/
def isLeapYear (y : ℤ) : Bool :=
  y % 4 == 0 && (y % 100 != 0 || y % 400 == 0)

/-- Days in a month of the proleptic Gregorian calendar. -/
def daysInMonth (y : ℤ) (m : ℕ) : ℕ :=
  if m = 2 then (if isLeapYear y then 29 else 28)
  else if m = 4 ∨ m = 6 ∨ m = 9 ∨ m = 11 then 30
  else 31

/-- Days since the Unix epoch of a civil date (Hinnant's algorithm). -/
def daysFromCivil (y : ℤ) (m d : ℕ) : ℤ :=
  let yAdj := if m ≤ 2 then y - 1 else y
  let era := Int.fdiv yAdj 400
  let yoe := (yAdj - era * 400).toNat
  let mp := if 2 < m then m - 3 else m + 9
  let doy := (153 * mp + 2) / 5 + d - 1
  let doe := yoe * 365 + yoe / 4 - yoe / 100 + doy
  era * 146097 + (doe : ℤ) - 719468

/-- Civil date of a count of days since the Unix epoch (Hinnant's
algorithm): `(year, month, day)`. -/
def civilFromDays (z0 : ℤ) : ℤ × ℕ × ℕ :=
  let z := z0 + 719468
  let era := Int.fdiv z 146097
  let doe := (z - era * 146097).toNat
  let yoe := (doe - doe / 1460 + doe / 36524 - doe / 146096) / 365
  let y := (yoe : ℤ) + era * 400
  let doy := doe - (365 * yoe + yoe / 4 - yoe / 100)
  let mp := (5 * doy + 2) / 153
  let d := doy - (153 * mp + 2) / 5 + 1
  let m := if mp < 10 then mp + 3 else mp - 9
  (if m ≤ 2 then y + 1 else y, m, d)

/-- A timezone designator `±HH:MM` after the time part, as a millisecond
offset (`none` if malformed or followed by trailing characters). -/
def zoneHM (neg : Bool) (cs : List Char) : Option ℤ := do
  let hr ← readDigitsN 2 0 cs
  match hr.2 with
  | ':' :: cs2 => do
    let mr ← readDigitsN 2 0 cs2
    if mr.2.isEmpty ∧ hr.1 ≤ 23 ∧ mr.1 ≤ 59 then
      let total : ℤ := hr.1 * 3600000 + mr.1 * 60000
      some (if neg then -total else total)
    else none
  | _ => none

/-- The timezone designator of an ISO-8601 string: absent (read as UTC;
date-fns uses the environment's local zone, which is fixed to UTC here),
`Z`, or a `±HH:MM` offset. -/
def parseZoneOffset : List Char → Option ℤ
  | [] => some 0
  | ['Z'] => some 0
  | '+' :: cs => zoneHM false cs
  | '-' :: cs => zoneHM true cs
  | _ => none

/-- The `YYYY-MM-DD` date part of an ISO-8601 string, with calendar range
checks; returns the civil date and the remaining characters. -/
def parseISODate (cs : List Char) : Option ((ℤ × ℕ × ℕ) × List Char) := do
  let yr ← readDigitsN 4 0 cs
  match yr.2 with
  | '-' :: cs2 => do
    let mr ← readDigitsN 2 0 cs2
    match mr.2 with
    | '-' :: cs3 => do
      let dr ← readDigitsN 2 0 cs3
      if 1 ≤ mr.1 ∧ mr.1 ≤ 12 ∧ 1 ≤ dr.1 ∧ dr.1 ≤ daysInMonth yr.1 mr.1 then
        some (((yr.1 : ℤ), mr.1, dr.1), dr.2)
      else none
    | _ => none
  | _ => none

/-- The optional `THH:MM[:SS[.mmm]]` time part plus zone designator, as
milliseconds past midnight minus the zone offset. -/
def parseISOTimeAndZone : List Char → Option ℤ
  | [] => some 0
  | 'T' :: cs => do
    let hr ← readDigitsN 2 0 cs
    match hr.2 with
    | ':' :: cs2 => do
      let mr ← readDigitsN 2 0 cs2
      let smr ←
        match mr.2 with
        | ':' :: cs3 => do
          let sr ← readDigitsN 2 0 cs3
          match sr.2 with
          | '.' :: cs4 => do
            let msr ← readDigitsN 3 0 cs4
            some (sr.1, msr.1, msr.2)
          | _ => some (sr.1, 0, sr.2)
        | _ => some (0, 0, mr.2)
      let zone ← parseZoneOffset smr.2.2
      if hr.1 ≤ 23 ∧ mr.1 ≤ 59 ∧ smr.1 ≤ 59 then
        some ((hr.1 * 3600000 + mr.1 * 60000 + smr.1 * 1000 + smr.2.1 : ℤ) - zone)
      else none
    | _ => none
  | _ => none

/-- Modelled from the spec: date-fns `parseISO` ("parse it as ISO-8601"), an
external dependency.  Accepts `YYYY-MM-DD[THH:MM[:SS[.mmm]][Z|±HH:MM]]` with
calendar/range validation and returns the epoch milliseconds; `none` is an
Invalid Date. -/
def parseISO (s : String) : Option ℤ := do
  let dr ← parseISODate s.data
  let tms ← parseISOTimeAndZone dr.2
  some (daysFromCivil dr.1.1 dr.1.2.1 dr.1.2.2 * 86400000 + tms)

/-- Zero-pad a number to two digits. -/
def pad2 (n : ℕ) : String := if n < 10 then "0" ++ toString n else toString n

/-- Zero-pad a number to three digits. -/
def pad3 (n : ℕ) : String :=
  if n < 10 then "00" ++ toString n
  else if n < 100 then "0" ++ toString n else toString n

/-- Zero-pad a year to four digits (the extended-year forms JavaScript uses
outside 0–9999 are not modelled; no theorem depends on them). -/
def pad4 (y : ℤ) : String :=
  if 0 ≤ y ∧ y < 10 then "000" ++ toString y
  else if 0 ≤ y ∧ y < 100 then "00" ++ toString y
  else if 0 ≤ y ∧ y < 1000 then "0" ++ toString y
  else toString y

/-- Modelled from the spec: `Date.prototype.toISOString`, the "normalized
timestamp string" of a valid date, always in UTC. -/
def toISOString (ms : ℤ) : String :=
  let day := Int.fdiv ms 86400000
  let rem := (ms - day * 86400000).toNat
  let c := civilFromDays day
  pad4 c.1 ++ "-" ++ pad2 c.2.1 ++ "-" ++ pad2 c.2.2 ++ "T" ++
    pad2 (rem / 3600000) ++ ":" ++ pad2 (rem / 60000 % 60) ++ ":" ++
    pad2 (rem / 1000 % 60) ++ "." ++ pad3 (rem % 1000) ++ "Z"

/-- The JavaScript property access `x.status` on a `Date` object: a `Date`
has no `status` property, so the access yields `undefined` (`none`). -/
def dateStatusProp (_ : Option ℤ) : Option String := none

/-- `isValid` as `processFile.js` line 8 binds it:
`const {isValid} = require("zod")`.  zod's `isValid`
(`zod/helpers/parseUtil`) is `(x) => x.status === "valid"`, a predicate on
zod *parse results*, not on dates.  Applied to the `Date` produced by
`parseISO`, the `status` access is `undefined` and the comparison is false
for every input.  (The date-fns `isValid`, which the surrounding code and
comments clearly intend, would instead test that the date is not an
Invalid Date.) -/
def isValid (d : Option ℤ) : Bool := dateStatusProp d == some "valid"

/-- date-fns `isValid`, modelled from the spec ("on failure raise"): true
exactly when the date is not an Invalid Date.  This is the function the
source intended to import; it is used only to state how the code diverges
from the spec. -/
def dateFnsIsValid (d : Option ℤ) : Bool := d.isSome

/-! ## Path helpers (`path.basename`, `path.join`) and string splitting -/

/-- Split a character list at every occurrence of a separator (the split is
total: `n` separators yield `n + 1` chunks, empty chunks included). -/
def splitOnChar (sep : Char) : List Char → List (List Char)
  | [] => [[]]
  | c :: cs =>
    if c = sep then [] :: splitOnChar sep cs
    else
      match splitOnChar sep cs with
      | [] => [[c]]
      | w :: ws => (c :: w) :: ws

/-- JavaScript `s.split(sep)` for a one-character separator, as
`determineFieldMapping` uses it on `"_"` and `path.basename` on `"/"`. -/
def jsSplit (s : String) (sep : Char) : List String :=
  (splitOnChar sep s.data).map (fun cs => String.mk cs)

/-- `path.basename`: the last `/`-separated component (posix separators;
trailing-separator stripping is not exercised and not modelled). -/
def basename (p : String) : String := (jsSplit p '/').getLastD ""

/-- `path.join` of a directory and a file name (normalization of `.`/`..`
segments is not exercised and not modelled). -/
def joinPath (dir name : String) : String := dir ++ "/" ++ name

/-! ## The data model of `processFile.js` -/

/-- A coerced value in a Record: a copied raw string (also the normalized
timestamp), the `duration` float, or the `count` integer. -/
inductive Value where
  | str (s : String)
  | num (n : JsNum)
  | int (z : ℤ)
deriving DecidableEq, Repr

/-- A Record / `dataObject`, as a JavaScript object. -/
abbrev JsObj := List (String × Value)

/-- A raw parsed row (`contentColumn`): column name to raw string value. -/
abbrev RawRow := List (String × String)

/-- Equality of modelled thrown-or-returned results is decidable (used to
evaluate the embedding at concrete inputs). -/
instance {ε α : Type} [DecidableEq ε] [DecidableEq α] : DecidableEq (Except ε α)
  | .error e, .error f =>
    if h : e = f then .isTrue (by rw [h]) else
      .isFalse (fun hc => h (Except.error.inj hc))
  | .error _, .ok _ => .isFalse (fun hc => Except.noConfusion hc)
  | .ok _, .error _ => .isFalse (fun hc => Except.noConfusion hc)
  | .ok a, .ok b =>
    if h : a = b then .isTrue (by rw [h]) else
      .isFalse (fun hc => h (Except.ok.inj hc))

/-- One entry of `FILE_FIELD_MAP` (config.loader.js `FieldMapSchema`):
`spacing` is the zero-based part index, `fields` the schema field names. -/
structure FieldMapEntry where
  spacing : ℕ
  fields : List String
deriving DecidableEq, Repr

/-- `FILE_FIELD_MAP` (config.loader.js `FileFieldMapSchema`,
`z.record(FieldMapSchema)`): a JavaScript object keyed by match token,
modelled as an association list in the object's enumeration order. -/
abbrev FileFieldMap := List (String × FieldMapEntry)

/-- The configuration fields `processFiles` destructures
(processFile.js lines 133-139), plus `FILE_FIELD_MAP`. -/
structure PipelineConfig where
  BATCH_SIZE : ℕ
  miscErrorDirectory : String
  dbInsertionErrorDirectory : String
  sourceZipDirectory : String
  fieldConfigErrorDirectory : String
  FILE_FIELD_MAP : FileFieldMap
deriving DecidableEq, Repr

/-! ## `determineFieldMapping` (processFile.js lines 23-31) -/

/-- The loop test `parts[value.spacing] === key`: an out-of-range index
reads `undefined`, which never equals a string key. -/
def entryMatches (parts : List String) (kv : String × FieldMapEntry) : Bool :=
  parts[kv.2.spacing]? == some kv.1

/-- `determineFieldMapping(filename, config)`: split the filename on `_`,
scan `Object.entries(config.FILE_FIELD_MAP)` in order, return the first
matching entry's `fields`, or `null` (`none`) when no entry matches. -/
def determineFieldMapping (filename : String) (config : PipelineConfig) :
    Option (List String) :=
  match config.FILE_FIELD_MAP.find? (entryMatches (jsSplit filename '_')) with
  | some kv => some kv.2.fields
  | none => none

/-! ## `constructDataObject` (processFile.js lines 44-71) -/

/-- The body of the `fields.forEach` loop of `constructDataObject`
(lines 46-67), acting on the accumulated `dataObject`: skip a field absent
from `contentColumn`; for `date_time` parse with `parseISO` and test with
the imported `isValid`, storing the normalized string on success and
throwing `Error` on failure (the `toISOString` call on an Invalid Date
would itself throw a `RangeError`, modelled as the second error case); for
`duration` / `count` store `parseFloat(value) || 0` / `parseInt(value) || 0`;
otherwise copy the raw string. -/
def coerceField (contentColumn : RawRow) (dataObject : JsObj)
    (field : String) : Except String JsObj :=
  match jsGet contentColumn field with
  | none => .ok dataObject
  | some value =>
    if field = "date_time" then
      if isValid (parseISO value) then
        match parseISO value with
        | some t => .ok (jsSet dataObject field (.str (toISOString t)))
        | none => .error "Invalid time value"
      else
        .error ("Invalid date format for field " ++ field)
    else if field = "duration" ∨ field = "count" then
      if field = "duration" then
        .ok (jsSet dataObject field (.num (jsOrZero (parseFloat value))))
      else
        .ok (jsSet dataObject field (.int (jsIntOrZero (parseInt value))))
    else
      .ok (jsSet dataObject field (.str value))

/-- `constructDataObject(fields, contentColumn)`: fold the loop body over
`fields` starting from the empty object; a thrown `Error` short-circuits
the remaining fields (`foldlM` over `Except`). -/
def constructDataObject (fields : List String) (contentColumn : RawRow) :
    Except String JsObj :=
  fields.foldlM (coerceField contentColumn) []

/-! ## `validateData` (processFile.js lines 85-93) -/

/-- `validateData(dataObject, requiredFields)`: push one
`"Missing required field: ..."` message per required name absent from the
object, in order; return `null` (`none`) when no errors. -/
def validateData (dataObject : JsObj) (requiredFields : List String) :
    Option (List String) :=
  let errors := requiredFields.foldl
    (fun errs field =>
      if jsHas dataObject field then errs
      else errs ++ ["Missing required field: " ++ field])
    []
  if errors.length > 0 then some errors else none

/-! ## The per-file pipeline (`processFiles`, lines 131-267) -/

/-- The target path `queueErrorFile` computes (lines 105-108):
`path.join(directoryPath, path.basename(filePath))`. -/
def queueTarget (directoryPath filePath : String) : String :=
  joinPath directoryPath (basename filePath)

/-- Observable state accumulated while a file's rows are processed: the
relocation tasks pushed onto the error queue, as `(sourcePath, targetPath)`
pairs in push order, and the successfully inserted Records in order. -/
structure PipelineState where
  queued : List (String × String)
  inserted : List JsObj
deriving DecidableEq, Repr

/-- `queueErrorFile(errorQueue, filePath, directoryPath)` (lines 105-109):
push the file's relocation task onto the error queue. -/
def queueErrorFile (st : PipelineState) (filePath directoryPath : String) :
    PipelineState :=
  { st with queued := st.queued ++ [(filePath, queueTarget directoryPath filePath)] }

/-- The body of the `for await (const contentColumn of parser)` row loop
(processFile.js lines 193-241).  `db` models the external Prisma store
client `prisma.detection.create`: `true` when the insert resolves, `false`
when it rejects.  Coercion failure and validation failure enqueue the file
to the misc error directory; an insert rejection enqueues it to the
db-insertion error directory; a successful insert records the Record. -/
def processRow (db : JsObj → Bool) (config : PipelineConfig)
    (filePath : String) (matchedMappedFields : List String)
    (contentColumn : RawRow) (st : PipelineState) : PipelineState :=
  match constructDataObject matchedMappedFields contentColumn with
  | .error _ => queueErrorFile st filePath config.miscErrorDirectory
  | .ok dataObject =>
    match validateData (jsSet dataObject "file_name" (.str (basename filePath)))
        matchedMappedFields with
    | some _ => queueErrorFile st filePath config.miscErrorDirectory
    | none =>
      if db (jsSet dataObject "file_name" (.str (basename filePath))) then
        { st with inserted := st.inserted ++
            [jsSet dataObject "file_name" (.str (basename filePath))] }
      else queueErrorFile st filePath config.dbInsertionErrorDirectory

/-- The row loop over the stream of rows the csv parser yields
(the parser itself is an external dependency; its yielded rows are the
input list). -/
def processRows (db : JsObj → Bool) (config : PipelineConfig)
    (filePath : String) (matchedMappedFields : List String)
    (rows : List RawRow) (st : PipelineState) : PipelineState :=
  rows.foldl (fun s row => processRow db config filePath matchedMappedFields row s) st

/-- Result of one per-file task: whether the file was opened
(`fs.createReadStream`, line 176) and the accumulated observable state. -/
structure FileOutcome where
  opened : Bool
  final : PipelineState
deriving DecidableEq, Repr

/-- One per-file task of `processFiles` (lines 162-248): resolve the field
mapping from the filename; with no mapping, enqueue the file to
`fieldConfigErrorDirectory` and return without opening the file; otherwise
open the stream and run the row loop. -/
def processOneFile (db : JsObj → Bool) (config : PipelineConfig)
    (file : String) (rows : List RawRow) : FileOutcome :=
  match determineFieldMapping file config with
  | none =>
    ⟨false, queueErrorFile ⟨[], []⟩ (joinPath config.sourceZipDirectory file)
      config.fieldConfigErrorDirectory⟩
  | some matchedMappedFields =>
    ⟨true, processRows db config (joinPath config.sourceZipDirectory file)
      matchedMappedFields rows ⟨[], []⟩⟩

/-! ## The error-relocation queue (lines 142-153, 250-263)

The scheduler is `async.queue(worker, BATCH_SIZE)` from the `async` npm
package, an external dependency; its bounded-concurrency semantics are
modelled from the spec as a transition system.  The worker body is from the
source: the move is wrapped in try/catch and `callback()` runs in
`finally`, so a task completes and frees its slot whether the move
succeeded or failed, and a failed move has no effect beyond its log line. -/

/-- Abstract state of the relocation queue: counts of tasks waiting,
running, and completed. -/
structure QState where
  pending : ℕ
  running : ℕ
  done : ℕ
deriving DecidableEq, Repr

/-- One scheduler step: `start` dispatches a waiting task when fewer than
`K` workers run; `finish` completes a running task, with `success`
recording whether the `fs.move` resolved (both outcomes call `callback()`
and complete the task). -/
inductive QStep (K : ℕ) : QState → QState → Prop
  | start (p r d : ℕ) : r < K → QStep K ⟨p + 1, r, d⟩ ⟨p, r + 1, d⟩
  | finish (success : Bool) (p r d : ℕ) : QStep K ⟨p, r + 1, d⟩ ⟨p, r, d + 1⟩

/-- Initial queue state with `N` enqueued tasks. -/
def QInit (N : ℕ) : QState := ⟨N, 0, 0⟩

/-- The `drain()` condition (lines 256-258): no task waiting and none
running. -/
def drained (s : QState) : Prop := s.pending = 0 ∧ s.running = 0

/-! ## Spec-side definitions (for refinement statements) -/

/-- The resolver as the spec states it (spec §4.1): scan the entries in
declaration order; an entry whose `partIndex` is within range and whose
`matchToken` equals that part wins; an out-of-range `partIndex` is a
non-match and resolution continues with the next entry. -/
def resolveSpec (parts : List String) : FileFieldMap → Option (List String)
  | [] => none
  | (matchToken, entry) :: rest =>
    if h : entry.spacing < parts.length then
      if parts.get ⟨entry.spacing, h⟩ = matchToken then some entry.fields
      else resolveSpec parts rest
    else resolveSpec parts rest

/-- The value `constructDataObject` stores for a non-timestamp field that
is present in the row (used to characterize the coercion fold). -/
def nonDateValue (field value : String) : Value :=
  if field = "duration" then .num (jsOrZero (parseFloat value))
  else if field = "count" then .int (jsIntOrZero (parseInt value))
  else .str value

/-! # Theorems -/

/-! ## Object-primitive lemmas -/

theorem jsGet_cons {α : Type} (p : String × α) (ps : List (String × α))
    (k : String) :
    jsGet (p :: ps) k = if p.1 == k then some p.2 else jsGet ps k := by
  by_cases h : p.1 == k <;> simp [jsGet, List.find?_cons, h]

theorem jsHas_cons {α : Type} (p : String × α) (ps : List (String × α))
    (k : String) :
    jsHas (p :: ps) k = (p.1 == k || jsHas ps k) := by
  simp [jsHas]

theorem jsGet_isSome {α : Type} (o : List (String × α)) (k : String) :
    (jsGet o k).isSome = jsHas o k := by
  induction o with
  | nil => rfl
  | cons p ps ih =>
    by_cases h : p.1 == k <;> simp [jsGet_cons, jsHas_cons, h, ih]

theorem jsGet_eq_none_iff {α : Type} (o : List (String × α)) (k : String) :
    jsGet o k = none ↔ jsHas o k = false := by
  rw [← jsGet_isSome]
  cases jsGet o k <;> simp

theorem jsHas_of_jsGet_some {α : Type} {o : List (String × α)} {k : String}
    {v : α} (h : jsGet o k = some v) : jsHas o k = true := by
  rw [← jsGet_isSome, h]; rfl

theorem fst_setEntry {α : Type} (k : String) (v : α) (p : String × α) :
    (if p.1 == k then (p.1, v) else p).1 = p.1 := by
  by_cases h : p.1 == k <;> simp [h]

theorem jsHas_map_set {α : Type} (o : List (String × α)) (k q : String)
    (v : α) :
    jsHas (o.map (fun p => if p.1 == k then (p.1, v) else p)) q = jsHas o q := by
  induction o with
  | nil => rfl
  | cons p ps ih =>
    rw [List.map_cons, jsHas_cons, fst_setEntry, ih, ← jsHas_cons]

theorem jsGet_map_set_ne {α : Type} (o : List (String × α)) (k q : String)
    (v : α) (hne : q ≠ k) :
    jsGet (o.map (fun p => if p.1 == k then (p.1, v) else p)) q = jsGet o q := by
  induction o with
  | nil => rfl
  | cons p ps ih =>
    rw [List.map_cons, jsGet_cons, fst_setEntry, ih]
    by_cases h : p.1 == q
    · have hk : (p.1 == k) = false := by
        have h2 : p.1 = q := by simpa using h
        rw [beq_eq_false_iff_ne, h2]
        exact fun hc => hne hc
      simp [jsGet_cons, h, hk]
    · simp [jsGet_cons, h]

theorem jsGet_map_set_self {α : Type} (o : List (String × α)) (k : String)
    (v : α) (hmem : jsHas o k = true) :
    jsGet (o.map (fun p => if p.1 == k then (p.1, v) else p)) k = some v := by
  induction o with
  | nil => simp [jsHas] at hmem
  | cons p ps ih =>
    rw [List.map_cons, jsGet_cons, fst_setEntry]
    by_cases h : p.1 == k
    · simp [h]
    · rw [jsHas_cons] at hmem
      rw [if_neg h]
      have hmem2 : jsHas ps k = true := by
        rcases Bool.or_eq_true_iff.mp hmem with h1 | h2
        · exact absurd h1 h
        · exact h2
      exact ih hmem2

theorem jsGet_append_single {α : Type} (o : List (String × α)) (k q : String)
    (v : α) :
    jsGet (o ++ [(k, v)]) q =
      if jsHas o q then jsGet o q
      else (if k == q then some v else none) := by
  induction o with
  | nil => simp [jsGet_cons, jsHas, jsGet]
  | cons p ps ih =>
    rw [List.cons_append, jsGet_cons, jsHas_cons, jsGet_cons]
    by_cases h : p.1 == q
    · simp [h]
    · simp [h, ih]

theorem jsHas_jsSet_iff {α : Type} (o : List (String × α)) (k q : String)
    (v : α) :
    jsHas (jsSet o k v) q = true ↔ (jsHas o q = true ∨ q = k) := by
  unfold jsSet
  by_cases hmem : o.any (fun p => p.1 == k)
  · rw [if_pos hmem, jsHas_map_set]
    constructor
    · exact Or.inl
    · rintro (h | rfl)
      · exact h
      · exact hmem
  · rw [if_neg hmem]
    unfold jsHas
    rw [List.any_append]
    simp only [List.any_cons, List.any_nil, Bool.or_false, Bool.or_eq_true,
      beq_iff_eq]
    constructor
    · rintro (h | h)
      · exact Or.inl h
      · exact Or.inr h.symm
    · rintro (h | h)
      · exact Or.inl h
      · exact Or.inr h.symm

theorem jsGet_jsSet_self {α : Type} (o : List (String × α)) (k : String)
    (v : α) : jsGet (jsSet o k v) k = some v := by
  unfold jsSet
  by_cases hmem : o.any (fun p => p.1 == k)
  · rw [if_pos hmem]
    exact jsGet_map_set_self o k v hmem
  · rw [if_neg hmem, jsGet_append_single]
    have h2 : jsHas o k = false := by
      unfold jsHas
      exact Bool.eq_false_iff.mpr hmem
    rw [h2, if_neg Bool.false_ne_true, if_pos (beq_self_eq_true k)]

theorem jsGet_jsSet_ne {α : Type} (o : List (String × α)) (k q : String)
    (v : α) (hne : q ≠ k) : jsGet (jsSet o k v) q = jsGet o q := by
  unfold jsSet
  by_cases hmem : o.any (fun p => p.1 == k)
  · rw [if_pos hmem]
    exact jsGet_map_set_ne o k q v hne
  · rw [if_neg hmem, jsGet_append_single]
    have hkq : (k == q) = false := by
      rw [beq_eq_false_iff_ne]
      exact fun hc => hne hc.symm
    by_cases hq : jsHas o q
    · simp [hq]
    · have h2 : jsHas o q = false := Bool.eq_false_iff.mpr hq
      rw [h2, hkq]
      simp [((jsGet_eq_none_iff o q).mpr h2).symm]

/-! ## C2: the resolver returns the first matching entry -/

theorem find?_eq_resolveSpec (parts : List String) (l : FileFieldMap) :
    (match l.find? (entryMatches parts) with
      | some kv => some kv.2.fields
      | none => none) = resolveSpec parts l := by
  induction l with
  | nil => simp [resolveSpec]
  | cons kv rest ih =>
    obtain ⟨tok, e⟩ := kv
    by_cases hm : entryMatches parts (tok, e)
    · rw [List.find?_cons_of_pos _ hm]
      have hm2 : parts[e.spacing]? = some tok := by
        simpa [entryMatches] using hm
      obtain ⟨hlt, hget⟩ := List.getElem?_eq_some.mp hm2
      rw [resolveSpec, dif_pos hlt]
      rw [List.get_eq_getElem, if_pos hget]
    · rw [List.find?_cons_of_neg _ hm]
      rw [resolveSpec]
      by_cases hlt : e.spacing < parts.length
      · rw [dif_pos hlt]
        have hne : parts.get ⟨e.spacing, hlt⟩ ≠ tok := by
          intro hc
          apply hm
          simp only [entryMatches]
          rw [List.getElem?_eq_getElem hlt]
          rw [List.get_eq_getElem] at hc
          simp [hc]
        rw [if_neg hne]
        exact ih
      · rw [dif_neg hlt]
        exact ih

/-- C2: `determineFieldMapping` splits the filename on `_` and returns the
fields of the first entry in declaration order whose match token equals the
part at that entry's index, or `none` when no entry matches; an entry whose
index is out of range is a non-match (not an error) and resolution
continues with the next entry — exactly the spec-side `resolveSpec`. -/
theorem determineFieldMapping_resolves_first_match (filename : String)
    (config : PipelineConfig) :
    determineFieldMapping filename config =
      resolveSpec (jsSplit filename '_') config.FILE_FIELD_MAP := by
  unfold determineFieldMapping
  exact find?_eq_resolveSpec _ _

/-! ## C3: `validateData` -/

theorem validate_foldl (dataObject : JsObj) (req : List String)
    (acc : List String) :
    req.foldl
      (fun errs field =>
        if jsHas dataObject field then errs
        else errs ++ ["Missing required field: " ++ field]) acc =
    acc ++ (req.filter (fun field => ! jsHas dataObject field)).map
      (fun field => "Missing required field: " ++ field) := by
  induction req generalizing acc with
  | nil => simp
  | cons f fs ih =>
    by_cases h : jsHas dataObject f
    · simp [h, ih]
    · simp [h, ih]

/-- C3: `validateData` returns `null` iff every required field name is a
key of the record; otherwise it returns the list with one
`"Missing required field: ..."` message per missing occurrence, in the
order the names appear in the required-fields list. -/
theorem validateData_correct (dataObject : JsObj)
    (requiredFields : List String) :
    (validateData dataObject requiredFields = none ↔
      ∀ field ∈ requiredFields, jsHas dataObject field = true) ∧
    (¬ (∀ field ∈ requiredFields, jsHas dataObject field = true) →
      validateData dataObject requiredFields =
        some ((requiredFields.filter (fun field => ! jsHas dataObject field)).map
          (fun field => "Missing required field: " ++ field))) := by
  unfold validateData
  simp only [validate_foldl, List.nil_append]
  constructor
  · constructor
    · intro h field hf
      by_contra hc
      rw [if_pos] at h
      · exact Option.some_ne_none _ h
      · have : field ∈ requiredFields.filter (fun f => ! jsHas dataObject f) := by
          rw [List.mem_filter]
          exact ⟨hf, by simp [hc]⟩
        have hne : requiredFields.filter (fun f => ! jsHas dataObject f) ≠ [] := by
          intro hnil
          rw [hnil] at this
          exact absurd this (List.not_mem_nil _)
        have : 0 < (requiredFields.filter (fun f => ! jsHas dataObject f)).length :=
          List.length_pos.mpr hne
        simpa using this
    · intro h
      have hfil : requiredFields.filter (fun f => ! jsHas dataObject f) = [] := by
        rw [List.filter_eq_nil_iff]
        intro a ha
        simp [h a ha]
      simp [hfil]
  · intro h
    have hne : requiredFields.filter (fun f => ! jsHas dataObject f) ≠ [] := by
      intro hnil
      apply h
      intro field hf
      by_contra hc
      have : field ∈ requiredFields.filter (fun f => ! jsHas dataObject f) := by
        rw [List.mem_filter]
        exact ⟨hf, by simp [hc]⟩
      rw [hnil] at this
      exact absurd this (List.not_mem_nil _)
    rw [if_pos]
    have : 0 < (requiredFields.filter (fun f => ! jsHas dataObject f)).length :=
      List.length_pos.mpr hne
    simpa using this

/-- Witness for C3 at a concrete input: one required field, empty record. -/
theorem validateData_correct_witness :
    validateData [] ["a"] = some ["Missing required field: a"] := by
  have h := (validateData_correct [] ["a"]).2 (by decide)
  exact h.trans (by decide)

/-! ## The coercion fold: characterization lemmas -/

theorem coerceField_absent (row : RawRow) (acc : JsObj) (field : String)
    (h : jsGet row field = none) :
    coerceField row acc field = .ok acc := by
  simp [coerceField, h]

theorem coerceField_present_date (row : RawRow) (acc : JsObj) (value : String)
    (h : jsGet row "date_time" = some value) :
    coerceField row acc "date_time" =
      .error "Invalid date format for field date_time" := by
  simp [coerceField, h, isValid, dateStatusProp]

theorem coerceField_present_nonDate (row : RawRow) (acc : JsObj)
    (field value : String) (h : jsGet row field = some value)
    (hd : field ≠ "date_time") :
    coerceField row acc field = .ok (jsSet acc field (nonDateValue field value)) := by
  by_cases h1 : field = "duration"
  · subst h1
    simp [coerceField, h, nonDateValue]
  · by_cases h2 : field = "count"
    · subst h2
      simp [coerceField, h, nonDateValue]
    · simp [coerceField, h, nonDateValue, hd, h1, h2]

theorem foldlM_coerce_ok (contentColumn : RawRow) :
    ∀ (fields : List String) (acc : JsObj),
      ("date_time" ∈ fields → jsHas contentColumn "date_time" = false) →
      ∃ rec, List.foldlM (coerceField contentColumn) acc fields = Except.ok rec := by
  intro fields
  induction fields with
  | nil => exact fun acc _ => ⟨acc, rfl⟩
  | cons f fs ih =>
    intro acc h
    cases hf : jsGet contentColumn f with
    | none =>
      obtain ⟨rec, hrec⟩ := ih acc (fun hm => h (List.mem_cons_of_mem _ hm))
      refine ⟨rec, ?_⟩
      rw [List.foldlM_cons, coerceField_absent _ _ _ hf]
      exact hrec
    | some value =>
      have hfd : f ≠ "date_time" := by
        intro hc
        subst hc
        have h2 := h (List.mem_cons_self _ _)
        rw [(jsGet_eq_none_iff _ _).mpr h2] at hf
        cases hf
      obtain ⟨rec, hrec⟩ :=
        ih (jsSet acc f (nonDateValue f value)) (fun hm => h (List.mem_cons_of_mem _ hm))
      refine ⟨rec, ?_⟩
      rw [List.foldlM_cons, coerceField_present_nonDate _ _ _ _ hf hfd]
      exact hrec

theorem foldlM_coerce_get (contentColumn : RawRow) :
    ∀ (fields : List String) (acc rec : JsObj),
      List.foldlM (coerceField contentColumn) acc fields = Except.ok rec →
      ∀ (k v : String), jsGet contentColumn k = some v →
        jsGet rec k =
          if k ∈ fields then some (nonDateValue k v) else jsGet acc k := by
  intro fields
  induction fields with
  | nil =>
    intro acc rec h k v hv
    have h2 : (Except.ok acc : Except String JsObj) = Except.ok rec := h
    obtain rfl := Except.ok.inj h2
    simp
  | cons f fs ih =>
    intro acc rec h k v hv
    cases hf : jsGet contentColumn f with
    | none =>
      rw [List.foldlM_cons, coerceField_absent _ _ _ hf] at h
      have h2 : List.foldlM (coerceField contentColumn) acc fs = Except.ok rec := h
      rw [ih acc rec h2 k v hv]
      have hkf : k ≠ f := by
        intro hc
        subst hc
        rw [hv] at hf
        cases hf
      by_cases hk : k ∈ fs
      · simp [hk, List.mem_cons]
      · simp [hk, hkf, List.mem_cons]
    | some w =>
      by_cases hd : f = "date_time"
      · subst hd
        rw [List.foldlM_cons, coerceField_present_date _ _ _ hf] at h
        have h2 : (Except.error "Invalid date format for field date_time" :
            Except String JsObj) = Except.ok rec := h
        exact Except.noConfusion h2
      · rw [List.foldlM_cons, coerceField_present_nonDate _ _ _ _ hf hd] at h
        have h2 : List.foldlM (coerceField contentColumn)
            (jsSet acc f (nonDateValue f w)) fs = Except.ok rec := h
        rw [ih _ rec h2 k v hv]
        by_cases hk : k ∈ fs
        · simp [hk, List.mem_cons]
        · by_cases hkf : k = f
          · subst hkf
            rw [hv] at hf
            obtain rfl := Option.some.inj hf
            simp [hk, List.mem_cons, jsGet_jsSet_self]
          · rw [jsGet_jsSet_ne _ _ _ _ hkf]
            simp [hk, hkf, List.mem_cons]

theorem foldlM_coerce_keys (contentColumn : RawRow) :
    ∀ (fields : List String) (acc rec : JsObj),
      List.foldlM (coerceField contentColumn) acc fields = Except.ok rec →
      ∀ k, jsHas rec k = true ↔
        (jsHas acc k = true ∨ (k ∈ fields ∧ jsHas contentColumn k = true)) := by
  intro fields
  induction fields with
  | nil =>
    intro acc rec h k
    have h2 : (Except.ok acc : Except String JsObj) = Except.ok rec := h
    obtain rfl := Except.ok.inj h2
    simp
  | cons f fs ih =>
    intro acc rec h k
    cases hf : jsGet contentColumn f with
    | none =>
      rw [List.foldlM_cons, coerceField_absent _ _ _ hf] at h
      have h2 : List.foldlM (coerceField contentColumn) acc fs = Except.ok rec := h
      rw [ih acc rec h2 k]
      have hrowf : jsHas contentColumn f = false := (jsGet_eq_none_iff _ _).mp hf
      constructor
      · rintro (h3 | ⟨hm, hr⟩)
        · exact Or.inl h3
        · exact Or.inr ⟨List.mem_cons_of_mem _ hm, hr⟩
      · rintro (h3 | ⟨hm, hr⟩)
        · exact Or.inl h3
        · rcases List.mem_cons.mp hm with rfl | hm2
          · rw [hrowf] at hr
            cases hr
          · exact Or.inr ⟨hm2, hr⟩
    | some w =>
      by_cases hd : f = "date_time"
      · subst hd
        rw [List.foldlM_cons, coerceField_present_date _ _ _ hf] at h
        have h2 : (Except.error "Invalid date format for field date_time" :
            Except String JsObj) = Except.ok rec := h
        exact Except.noConfusion h2
      · rw [List.foldlM_cons, coerceField_present_nonDate _ _ _ _ hf hd] at h
        have h2 : List.foldlM (coerceField contentColumn)
            (jsSet acc f (nonDateValue f w)) fs = Except.ok rec := h
        rw [ih _ rec h2 k]
        rw [jsHas_jsSet_iff]
        have hrowf : jsHas contentColumn f = true := jsHas_of_jsGet_some hf
        constructor
        · rintro ((h3 | rfl) | ⟨hm, hr⟩)
          · exact Or.inl h3
          · exact Or.inr ⟨List.mem_cons_self _ _, hrowf⟩
          · exact Or.inr ⟨List.mem_cons_of_mem _ hm, hr⟩
        · rintro (h3 | ⟨hm, hr⟩)
          · exact Or.inl (Or.inl h3)
          · rcases List.mem_cons.mp hm with rfl | hm2
            · exact Or.inl (Or.inr rfl)
            · exact Or.inr ⟨hm2, hr⟩

/-! ## C5: the Record's keys are the fields present in both lists -/

/-- C5: when coercion succeeds, a field of the field list absent from the
raw row is omitted from the Record (not defaulted, not an error), and the
Record's keys are exactly the names that are both in the field list and
keys of the raw row (before the pipeline injects `file_name`). -/
theorem constructDataObject_keys (fields : List String)
    (contentColumn : RawRow) (rec : JsObj)
    (h : constructDataObject fields contentColumn = Except.ok rec)
    (k : String) :
    jsHas rec k = true ↔ (k ∈ fields ∧ jsHas contentColumn k = true) := by
  have h2 := foldlM_coerce_keys contentColumn fields [] rec h k
  simpa [jsHas] using h2

/-- Witness for C5 at a concrete input: `count` is present in both lists,
`x` only in the field list, `y` only in the row. -/
theorem constructDataObject_keys_witness :
    constructDataObject ["count", "x"] [("count", "12abc"), ("y", "1")] =
      Except.ok [("count", Value.int 12)] ∧
    (jsHas [("count", Value.int 12)] "count" = true ↔
      ("count" ∈ ["count", "x"] ∧
        jsHas [("count", "12abc"), ("y", "1")] "count" = true)) :=
  ⟨by decide, constructDataObject_keys _ _ _ (by decide) "count"⟩

/-! ## C4: non-date coercion never raises; malformed values become 0 -/

theorem jsOrZero_ne_nan (x : JsNum) : jsOrZero x ≠ JsNum.nan := by
  unfold jsOrZero
  by_cases h : jsTruthy x
  · rw [if_pos h]
    cases x with
    | nan => simp [jsTruthy] at h
    | inf b => simp
    | val q => simp
  · rw [if_neg h]
    simp

theorem nonDateValue_ne_nan (f v : String) :
    nonDateValue f v ≠ Value.num JsNum.nan := by
  unfold nonDateValue
  by_cases h1 : f = "duration"
  · rw [if_pos h1]
    simp only [ne_eq, Value.num.injEq]
    exact jsOrZero_ne_nan _
  · by_cases h2 : f = "count" <;> simp [h1, h2]

/-- C4 counterexample: with `duration` and `count` declared but absent from
the raw row, coercion returns a Record that omits them entirely — they do
not "become 0 in the Record" as the claim states. -/
theorem absent_numeric_fields_omitted_not_zero :
    constructDataObject ["duration", "count"] [] = Except.ok [] ∧
    jsGet ([] : JsObj) "duration" ≠ some (Value.num (JsNum.val 0)) ∧
    jsGet ([] : JsObj) "count" ≠ some (Value.int 0) := by
  refine ⟨rfl, ?_, ?_⟩ <;> simp [jsGet]

/-- C4 (amended): coercion never raises for non-date fields — whenever
`date_time` is not a declared-and-present field, coercion succeeds; a
`duration` / `count` value that is present but malformed becomes `0` in the
Record (`duration` as a float, `count` as an integer); no Record field is
ever `NaN`.  (A declared `duration`/`count` that is absent from the raw row
is omitted from the Record, per C5, not defaulted to 0.) -/
theorem nonDate_coercion_safe (fields : List String) (contentColumn : RawRow)
    (h : "date_time" ∈ fields → jsHas contentColumn "date_time" = false) :
    (∃ rec, constructDataObject fields contentColumn = Except.ok rec) ∧
    (∀ rec v, constructDataObject fields contentColumn = Except.ok rec →
      "duration" ∈ fields → jsGet contentColumn "duration" = some v →
      parseFloat v = JsNum.nan →
      jsGet rec "duration" = some (Value.num (JsNum.val 0))) ∧
    (∀ rec v, constructDataObject fields contentColumn = Except.ok rec →
      "count" ∈ fields → jsGet contentColumn "count" = some v →
      parseInt v = none →
      jsGet rec "count" = some (Value.int 0)) ∧
    (∀ rec k, constructDataObject fields contentColumn = Except.ok rec →
      jsGet rec k ≠ some (Value.num JsNum.nan)) := by
  refine ⟨foldlM_coerce_ok contentColumn fields [] h, ?_, ?_, ?_⟩
  · intro rec v hok hmem hv hnan
    rw [foldlM_coerce_get contentColumn fields [] rec hok "duration" v hv,
      if_pos hmem]
    have : nonDateValue "duration" v = Value.num (JsNum.val 0) := by
      simp [nonDateValue, hnan, jsOrZero, jsTruthy]
    rw [this]
  · intro rec v hok hmem hv hnone
    rw [foldlM_coerce_get contentColumn fields [] rec hok "count" v hv,
      if_pos hmem]
    have : nonDateValue "count" v = Value.int 0 := by
      simp [nonDateValue, hnone, jsIntOrZero]
    rw [this]
  · intro rec k hok
    cases hk : jsGet contentColumn k with
    | none =>
      have hhas : jsHas rec k = false := by
        rcases Bool.eq_false_or_eq_true (jsHas rec k) with h2 | h2
        swap
        · exact h2
        · have := (foldlM_coerce_keys contentColumn fields [] rec hok k).mp h2
          rcases this with h3 | ⟨_, h3⟩
          · simp [jsHas] at h3
          · rw [(jsGet_eq_none_iff _ _).mp hk] at h3
            cases h3
      rw [(jsGet_eq_none_iff _ _).mpr hhas]
      simp
    | some w =>
      rw [foldlM_coerce_get contentColumn fields [] rec hok k w hk]
      by_cases hmem : k ∈ fields
      · rw [if_pos hmem]
        intro hc
        exact nonDateValue_ne_nan k w (Option.some.inj hc)
      · rw [if_neg hmem]
        simp [jsGet]

/-- Witness for C4 at a concrete input: both numeric fields present and
malformed, both coerced to `0`. -/
theorem nonDate_coercion_safe_witness :
    ("date_time" ∈ ["duration", "count"] →
      jsHas [("duration", "abc"), ("count", "xyz")] "date_time" = false) ∧
    jsGet [("duration", Value.num (JsNum.val 0)), ("count", Value.int 0)]
      "duration" = some (Value.num (JsNum.val 0)) :=
  ⟨by decide,
    (nonDate_coercion_safe ["duration", "count"]
        [("duration", "abc"), ("count", "xyz")] (by decide)).2.1
      [("duration", Value.num (JsNum.val 0)), ("count", Value.int 0)]
      "abc" (by decide) (by decide) (by decide) (by decide)⟩

/-! ## C10: `count` parses a leading integer prefix; 0 is ambiguous -/

theorem constructDataObject_single (f : String) (hf : f ≠ "date_time")
    (v : String) :
    constructDataObject [f] [(f, v)] =
      Except.ok (jsSet [] f (nonDateValue f v)) := by
  unfold constructDataObject
  have hg : jsGet [(f, v)] f = some v := by
    rw [jsGet_cons]
    simp
  rw [List.foldlM_cons, coerceField_present_nonDate _ _ _ _ hg hf]
  rfl

/-- C10: `count` coercion parses a leading integer prefix rather than
requiring the whole string to be numeric (`"12abc"` coerces to `12`, a
decimal string `"3.9"` truncates to `3`), and for both `duration` and
`count` a value that parses to exactly `0` yields the same Record as a
value that fails to parse — both give `0`. -/
theorem count_leading_prefix_and_zero_ambiguous :
    constructDataObject ["count"] [("count", "12abc")] =
      Except.ok [("count", Value.int 12)] ∧
    constructDataObject ["count"] [("count", "3.9")] =
      Except.ok [("count", Value.int 3)] ∧
    (∀ v w : String, parseInt v = some 0 → parseInt w = none →
      constructDataObject ["count"] [("count", v)] =
        constructDataObject ["count"] [("count", w)]) ∧
    (∀ v w : String, parseFloat v = JsNum.val 0 → parseFloat w = JsNum.nan →
      constructDataObject ["duration"] [("duration", v)] =
        constructDataObject ["duration"] [("duration", w)]) := by
  refine ⟨by decide, by decide, ?_, ?_⟩
  · intro v w hv hw
    rw [constructDataObject_single "count" (by decide) v,
      constructDataObject_single "count" (by decide) w]
    have h1 : nonDateValue "count" v = nonDateValue "count" w := by
      simp [nonDateValue, hv, hw, jsIntOrZero]
    rw [h1]
  · intro v w hv hw
    rw [constructDataObject_single "duration" (by decide) v,
      constructDataObject_single "duration" (by decide) w]
    have h1 : nonDateValue "duration" v = nonDateValue "duration" w := by
      simp [nonDateValue, hv, hw, jsOrZero, jsTruthy]
    rw [h1]

theorem parseFloat_zero : parseFloat "0" = JsNum.val 0 := by
  have h : parseFloat "0" =
      JsNum.val ((digitsToNat ['0'] : ℚ) +
        (digitsToNat ([] : List Char) : ℚ) / 10 ^ (0 : ℕ)) := rfl
  have h0 : digitsToNat ['0'] = 0 := rfl
  have h1 : digitsToNat ([] : List Char) = 0 := rfl
  rw [h, h0, h1]
  norm_num

/-- Witness for C10 at concrete inputs: `"0"` parses to exactly `0` (for
both numeric fields) and `"zz"` / `"abc"` fail to parse; the coerced
Records coincide. -/
theorem count_zero_ambiguous_witness :
    parseInt "0" = some 0 ∧ parseInt "zz" = none ∧
    parseFloat "0" = JsNum.val 0 ∧ parseFloat "abc" = JsNum.nan ∧
    constructDataObject ["count"] [("count", "0")] =
      constructDataObject ["count"] [("count", "zz")] ∧
    constructDataObject ["duration"] [("duration", "0")] =
      constructDataObject ["duration"] [("duration", "abc")] :=
  ⟨by decide, by decide, parseFloat_zero, by decide,
    count_leading_prefix_and_zero_ambiguous.2.2.1 "0" "zz" (by decide) (by decide),
    count_leading_prefix_and_zero_ambiguous.2.2.2 "0" "abc" parseFloat_zero (by decide)⟩

/-! ## C1: the `date_time` coercion raises for every value (code bug) -/

/-- C1 (code bug): `processFile.js` imports `isValid` from zod instead of
date-fns, and zod's `isValid` is false on every `Date`; so coercion throws
`Error("Invalid date format for field date_time")` for every present
`date_time` value — including `"2024-01-01T00:00:00Z"`, a valid ISO-8601
timestamp that date-fns `isValid` accepts.  The success path of the
timestamp branch is unreachable. -/
theorem dateTime_coercion_always_raises :
    dateFnsIsValid (parseISO "2024-01-01T00:00:00Z") = true ∧
    constructDataObject ["date_time"] [("date_time", "2024-01-01T00:00:00Z")] =
      Except.error "Invalid date format for field date_time" ∧
    (∀ value : String,
      constructDataObject ["date_time"] [("date_time", value)] =
        Except.error "Invalid date format for field date_time") := by
  refine ⟨by decide, by decide, ?_⟩
  intro value
  unfold constructDataObject
  have hg : jsGet [("date_time", value)] "date_time" = some value := by
    rw [jsGet_cons]
    simp
  rw [List.foldlM_cons, coerceField_present_date _ _ _ hg]
  rfl

/-! ## C6: per-row failures are isolated and routed by kind -/

theorem queueTarget_ne_of_dir_ne (d1 d2 fp : String) (h : d1 ≠ d2) :
    queueTarget d1 fp ≠ queueTarget d2 fp := by
  unfold queueTarget joinPath
  intro hc
  apply h
  have h2 := congrArg String.data hc
  simp only [String.data_append] at h2
  have h3 := List.append_cancel_right h2
  have h4 := List.append_cancel_right h3
  cases d1 with
  | mk l1 =>
    cases d2 with
    | mk l2 =>
      have h5 : l1 = l2 := h4
      rw [h5]

/-- C6: for a file with a resolved schema, a per-row failure enqueues the
whole file (its source path) for relocation to the directory determined by
the failure kind and then continues with the remaining rows: processing a
row list is the row-by-row fold (no abort); a coercion failure or a
validation failure appends the misc-error task; an insert rejection appends
the db-insertion-error task (a distinct target whenever the directories
differ); in all three cases nothing is inserted for that row. -/
theorem per_row_failure_isolation (db : JsObj → Bool) (config : PipelineConfig)
    (filePath : String) (fields : List String) (pre post : List RawRow)
    (row : RawRow) (st : PipelineState) :
    (processRows db config filePath fields (pre ++ row :: post) st =
      processRows db config filePath fields post
        (processRow db config filePath fields row
          (processRows db config filePath fields pre st))) ∧
    (∀ e, constructDataObject fields row = Except.error e →
      processRow db config filePath fields row st =
        { st with queued := st.queued ++
            [(filePath, queueTarget config.miscErrorDirectory filePath)] }) ∧
    (∀ rec errs, constructDataObject fields row = Except.ok rec →
      validateData (jsSet rec "file_name" (Value.str (basename filePath)))
        fields = some errs →
      processRow db config filePath fields row st =
        { st with queued := st.queued ++
            [(filePath, queueTarget config.miscErrorDirectory filePath)] }) ∧
    (∀ rec, constructDataObject fields row = Except.ok rec →
      validateData (jsSet rec "file_name" (Value.str (basename filePath)))
        fields = none →
      db (jsSet rec "file_name" (Value.str (basename filePath))) = false →
      processRow db config filePath fields row st =
        { st with queued := st.queued ++
            [(filePath, queueTarget config.dbInsertionErrorDirectory filePath)] }) ∧
    (config.miscErrorDirectory ≠ config.dbInsertionErrorDirectory →
      queueTarget config.miscErrorDirectory filePath ≠
        queueTarget config.dbInsertionErrorDirectory filePath) := by
  refine ⟨?_, ?_, ?_, ?_,
    fun h => queueTarget_ne_of_dir_ne _ _ filePath h⟩
  · unfold processRows
    rw [List.foldl_append, List.foldl_cons]
  · intro e he
    simp [processRow, he, queueErrorFile]
  · intro rec errs hok hval
    simp [processRow, hok, hval, queueErrorFile]
  · intro rec hok hval hdb
    simp [processRow, hok, hval, hdb, queueErrorFile]

/-- Witness for C6 at a concrete input: a validation failure (required
field `count` absent from the row) appends the misc-error task and inserts
nothing. -/
theorem per_row_failure_isolation_witness :
    constructDataObject ["count"] [] = Except.ok [] ∧
    validateData (jsSet [] "file_name" (Value.str (basename "in/a.csv")))
      ["count"] = some ["Missing required field: count"] ∧
    processRow (fun _ => true) ⟨100, "misc", "dbe", "in", "fcfg", []⟩
      "in/a.csv" ["count"] [] ⟨[], []⟩ =
      ⟨[("in/a.csv", "misc/a.csv")], []⟩ := by
  refine ⟨by decide, by decide, ?_⟩
  have h := (per_row_failure_isolation (fun _ => true)
      ⟨100, "misc", "dbe", "in", "fcfg", []⟩ "in/a.csv" ["count"]
      [] [] [] ⟨[], []⟩).2.2.1
    [] ["Missing required field: count"] (by decide) (by decide)
  exact h.trans (by decide)

/-! ## C8: a file with no resolved mapping is skipped unopened -/

/-- C8: when the filename resolves to no field mapping, the pipeline
enqueues exactly one relocation task for the file, targeting
`fieldConfigErrorDirectory`, never opens the file, and inserts nothing. -/
theorem unmapped_file_skipped (db : JsObj → Bool) (config : PipelineConfig)
    (file : String) (rows : List RawRow)
    (h : determineFieldMapping file config = none) :
    processOneFile db config file rows =
      ⟨false, ⟨[(joinPath config.sourceZipDirectory file,
          queueTarget config.fieldConfigErrorDirectory
            (joinPath config.sourceZipDirectory file))], []⟩⟩ := by
  simp [processOneFile, h, queueErrorFile]

/-- Witness for C8 at a concrete input: `unknown_file.csv` matches no
config entry and is routed to the field-config error directory. -/
theorem unmapped_file_skipped_witness :
    determineFieldMapping "unknown_file.csv"
      ⟨100, "misc", "dbe", "in", "fcfg", [("sales", ⟨0, ["date_time"]⟩)]⟩ = none ∧
    processOneFile (fun _ => true)
      ⟨100, "misc", "dbe", "in", "fcfg", [("sales", ⟨0, ["date_time"]⟩)]⟩
      "unknown_file.csv" [[("date_time", "x")]] =
      ⟨false, ⟨[("in/unknown_file.csv", "fcfg/unknown_file.csv")], []⟩⟩ := by
  refine ⟨by decide, ?_⟩
  have h := unmapped_file_skipped (fun _ => true)
    ⟨100, "misc", "dbe", "in", "fcfg", [("sales", ⟨0, ["date_time"]⟩)]⟩
    "unknown_file.csv" [[("date_time", "x")]] (by decide)
  exact h.trans (by decide)

/-! ## C7: the relocation queue's concurrency bound and drain -/

/-- C7: in every run of the relocation queue reachable from `N` enqueued
tasks under concurrency limit `K`, at most `K` move operations run at any
instant; tasks are conserved (`pending + running + done = N`); the drain
condition holds only once all `N` tasks completed; and from any state with
a running task, a completion step exists for either outcome — a failed move
is swallowed and completes like a success, so it cannot prevent drain. -/
theorem errorQueue_concurrency_and_drain (K N : ℕ) (s : QState)
    (h : Relation.ReflTransGen (QStep K) (QInit N) s) :
    s.running ≤ K ∧ s.pending + s.running + s.done = N ∧
    (drained s → s.done = N) ∧
    (∀ success : Bool, 0 < s.running →
      QStep K s ⟨s.pending, s.running - 1, s.done + 1⟩) := by
  have main : s.running ≤ K ∧ s.pending + s.running + s.done = N := by
    induction h with
    | refl => simp [QInit]
    | tail hsteps hstep ih =>
      cases hstep with
      | start p r d hr =>
        simp only at ih ⊢
        omega
      | finish success p r d =>
        simp only at ih ⊢
        omega
  refine ⟨main.1, main.2, ?_, ?_⟩
  · rintro ⟨h1, h2⟩
    have hm := main.2
    omega
  · intro success hr
    obtain ⟨p, r, d⟩ := s
    simp only at hr ⊢
    cases r with
    | zero => omega
    | succ r2 => exact QStep.finish success p r2 d

/-- Witness for C7: with `K = 1`, two tasks started and finished one at a
time reach the fully-drained state, which the theorem certifies. -/
theorem errorQueue_concurrency_and_drain_witness :
    (⟨0, 0, 2⟩ : QState).running ≤ 1 ∧
    (⟨0, 0, 2⟩ : QState).pending + (⟨0, 0, 2⟩ : QState).running +
      (⟨0, 0, 2⟩ : QState).done = 2 ∧
    (drained ⟨0, 0, 2⟩ → (⟨0, 0, 2⟩ : QState).done = 2) ∧
    (∀ success : Bool, 0 < (⟨0, 0, 2⟩ : QState).running →
      QStep 1 ⟨0, 0, 2⟩ ⟨(⟨0, 0, 2⟩ : QState).pending,
        (⟨0, 0, 2⟩ : QState).running - 1, (⟨0, 0, 2⟩ : QState).done + 1⟩) := by
  refine errorQueue_concurrency_and_drain 1 2 ⟨0, 0, 2⟩ ?_
  have s1 : QStep 1 (QInit 2) ⟨1, 1, 0⟩ := QStep.start 1 0 0 (by decide)
  have s2 : QStep 1 ⟨1, 1, 0⟩ ⟨1, 0, 1⟩ := QStep.finish true 1 0 0
  have s3 : QStep 1 ⟨1, 0, 1⟩ ⟨0, 1, 1⟩ := QStep.start 0 0 1 (by decide)
  have s4 : QStep 1 ⟨0, 1, 1⟩ ⟨0, 0, 2⟩ := QStep.finish false 0 0 1
  exact Relation.ReflTransGen.tail
    (Relation.ReflTransGen.tail
      (Relation.ReflTransGen.tail
        (Relation.ReflTransGen.tail Relation.ReflTransGen.refl s1) s2) s3) s4

/-! ## C9: match tokens are unique across entries -/

/-- C9: in a `FILE_FIELD_MAP` whose keys are unique — which holds for every
JavaScript object, the shape `z.record(FieldMapSchema)` enforces — two
distinct entries always carry different match tokens, so the resolver's
first-match scan can be ambiguous only between entries with *different*
tokens whose respective part indices both match the filename. -/
theorem matchTokens_unique (config : PipelineConfig) (filename : String)
    (hkeys : (config.FILE_FIELD_MAP.map Prod.fst).Nodup) :
    (∀ i j : ℕ, ∀ hi : i < config.FILE_FIELD_MAP.length,
      ∀ hj : j < config.FILE_FIELD_MAP.length, i ≠ j →
      (config.FILE_FIELD_MAP.get ⟨i, hi⟩).1 ≠
        (config.FILE_FIELD_MAP.get ⟨j, hj⟩).1) ∧
    (∀ i j : ℕ, ∀ hi : i < config.FILE_FIELD_MAP.length,
      ∀ hj : j < config.FILE_FIELD_MAP.length, i ≠ j →
      entryMatches (jsSplit filename '_') (config.FILE_FIELD_MAP.get ⟨i, hi⟩) = true →
      entryMatches (jsSplit filename '_') (config.FILE_FIELD_MAP.get ⟨j, hj⟩) = true →
      (config.FILE_FIELD_MAP.get ⟨i, hi⟩).1 ≠
        (config.FILE_FIELD_MAP.get ⟨j, hj⟩).1) := by
  have tok : ∀ i j : ℕ, ∀ hi : i < config.FILE_FIELD_MAP.length,
      ∀ hj : j < config.FILE_FIELD_MAP.length, i ≠ j →
      (config.FILE_FIELD_MAP.get ⟨i, hi⟩).1 ≠
        (config.FILE_FIELD_MAP.get ⟨j, hj⟩).1 := by
    intro i j hi hj hij hc
    apply hij
    have hinj := List.nodup_iff_injective_get.mp hkeys
    have hi2 : i < (config.FILE_FIELD_MAP.map Prod.fst).length := by
      rw [List.length_map]
      exact hi
    have hj2 : j < (config.FILE_FIELD_MAP.map Prod.fst).length := by
      rw [List.length_map]
      exact hj
    have e1 : (config.FILE_FIELD_MAP.map Prod.fst).get ⟨i, hi2⟩ =
        (config.FILE_FIELD_MAP.get ⟨i, hi⟩).1 := by
      simp [List.get_eq_getElem, List.getElem_map]
    have e2 : (config.FILE_FIELD_MAP.map Prod.fst).get ⟨j, hj2⟩ =
        (config.FILE_FIELD_MAP.get ⟨j, hj⟩).1 := by
      simp [List.get_eq_getElem, List.getElem_map]
    have : (⟨i, hi2⟩ : Fin (config.FILE_FIELD_MAP.map Prod.fst).length) =
        ⟨j, hj2⟩ := by
      apply hinj
      rw [e1, e2, hc]
    exact congrArg Fin.val this
  exact ⟨tok, fun i j hi hj hij _ _ => tok i j hi hj hij⟩

/-- Witness for C9 at a concrete config with two distinct keys. -/
theorem matchTokens_unique_witness :
    (([("sales", ⟨0, ["a"]⟩), ("stock", ⟨0, ["b"]⟩)] : FileFieldMap).map
      Prod.fst).Nodup ∧
    ("sales" : String) ≠ "stock" := by
  constructor
  · decide
  · exact (matchTokens_unique
      ⟨100, "m", "d", "s", "f", [("sales", ⟨0, ["a"]⟩), ("stock", ⟨0, ["b"]⟩)]⟩
      "sales_x" (by decide)).1 0 1 (by decide) (by decide) (by decide)
